import Mathlib

/-!
Verification development for the inklecate esbuild plugin (src/index.mts).
The plugin's onLoad callback is embedded shallowly: regex matching for the
two diagnostic patterns, posix path resolution, an association-list
filesystem, newline-delimited compiler events, and the result assembly
with unconditional temp-file cleanup.
-/

/-- The apostrophe character used by the diagnostic patterns. -/
def apos : Char := Char.ofNat 39

/-- A character matched by the regex dot (JS `.` without the s flag):
any character except a line terminator. -/
def isDotChar (c : Char) : Bool :=
  !(c = '\n' || c = '\r' || c = Char.ofNat 8232 || c = Char.ofNat 8233)

/-- Strip an exact literal from the front of a character list. -/
def stripLit : List Char → List Char → Option (List Char)
  | [], s => some s
  | _ :: _, [] => none
  | l :: ls, c :: cs => if c = l then stripLit ls cs else none

/-- Greedy backtracking for a `.*` group: prefer consuming more characters,
fall back to shorter captures when the continuation fails. -/
def matchDotStarFrom {α : Type} (acc : List Char) (s : List Char)
    (k : List Char → List Char → Option α) : Option α :=
  match s with
  | [] => k acc.reverse []
  | c :: cs =>
    if isDotChar c then
      match matchDotStarFrom (c :: acc) cs k with
      | some r => some r
      | none => k acc.reverse (c :: cs)
    else k acc.reverse (c :: cs)

/-- Greedy backtracking for a trailing `\d*` after one required digit. -/
def matchDigitsFrom {α : Type} (acc : List Char) (s : List Char)
    (k : List Char → List Char → Option α) : Option α :=
  match s with
  | [] => k acc.reverse []
  | c :: cs =>
    if c.isDigit then
      match matchDigitsFrom (c :: acc) cs k with
      | some r => some r
      | none => k acc.reverse (c :: cs)
    else k acc.reverse (c :: cs)

/-- Captured groups of the diagnostic patterns
`ERROR: '(.*)' line (\d+): (.*)` and `WARNING: '(.*)' line (\d+): (.*)`. -/
structure IssueMatch where
  file : String
  lineDigits : String
  message : String
  deriving DecidableEq

/-- Literal head of the error pattern, `ERROR: ` followed by a quote. -/
def errStart : List Char := "ERROR: ".data ++ [apos]

/-- Literal head of the warning pattern. -/
def warnStart : List Char := "WARNING: ".data ++ [apos]

/-- Literal between the file group and the digit group: quote, ` line `. -/
def lineMid : List Char := [apos] ++ " line ".data

/-- Literal between the digit group and the message group. -/
def colonSp : List Char := ": ".data

/-- Attempt the whole pattern at a fixed start position, with JS
leftmost-greedy backtracking semantics for the three groups. -/
def matchPatternAt (startLit : List Char) (s : List Char) : Option IssueMatch :=
  match stripLit startLit s with
  | none => none
  | some rest =>
    matchDotStarFrom [] rest fun g1 rest1 =>
      match stripLit lineMid rest1 with
      | none => none
      | some rest2 =>
        match rest2 with
        | [] => none
        | d :: rest2tl =>
          if d.isDigit then
            matchDigitsFrom [d] rest2tl fun g2 rest3 =>
              match stripLit colonSp rest3 with
              | none => none
              | some rest4 =>
                matchDotStarFrom [] rest4 fun g3 _ =>
                  some ⟨String.mk g1, String.mk g2, String.mk g3⟩
          else none

/-- Unanchored scan: try the pattern at every start position, leftmost
match wins (JS `String.prototype.match` with a non-global regex). -/
def scanMatch (startLit : List Char) : List Char → Option IssueMatch
  | [] => matchPatternAt startLit []
  | c :: cs =>
    match matchPatternAt startLit (c :: cs) with
    | some m => some m
    | none => scanMatch startLit cs

/-- `issue.match(errorRegex)` from src/index.mts. -/
def errorRegexMatch (issue : String) : Option IssueMatch :=
  scanMatch errStart issue.data

/-- `issue.match(warningRegex)` from src/index.mts. -/
def warningRegexMatch (issue : String) : Option IssueMatch :=
  scanMatch warnStart issue.data

/-- `parseInt(s, 10)` on a string of decimal digits. -/
def parseIntDigits (s : String) : Nat :=
  s.data.foldl (fun acc c => acc * 10 + (c.toNat - 48)) 0

/-- JS array indexing: negative or out-of-range indices give `undefined`. -/
def jsIndex (xs : List String) (i : Int) : Option String :=
  if i < 0 then none else xs.get? i.toNat

/-- Helper to write string literals containing apostrophes. -/
def quoted (s : String) : String := String.mk ([apos] ++ s.data ++ [apos])

example : errorRegexMatch ("ERROR: " ++ quoted "a.ink" ++ " line 3: boom")
    = some ⟨"a.ink", "3", "boom"⟩ := by decide

example : warningRegexMatch ("WARNING: " ++ quoted "w.ink" ++ " line 6: blank choice")
    = some ⟨"w.ink", "6", "blank choice"⟩ := by decide

example : errorRegexMatch "not a diagnostic" = none := by decide

example : errorRegexMatch ("WARNING: " ++ quoted "w.ink" ++ " line 2: ERROR: "
    ++ quoted "x.ink" ++ " line 5: bad") = some ⟨"x.ink", "5", "bad"⟩ := by decide

/-- Split a path string into its slash-separated segments, dropping
empty segments (the behaviour of node's posix path normalization). -/
def splitSegsAux : List Char → List Char → List String
  | [], acc => if acc.isEmpty then [] else [String.mk acc.reverse]
  | c :: cs, acc =>
    if c = '/' then
      if acc.isEmpty then splitSegsAux cs []
      else String.mk acc.reverse :: splitSegsAux cs []
    else splitSegsAux cs (c :: acc)

/-- Segments of a path string. -/
def pathSegments (s : String) : List String := splitSegsAux s.data []

/-- One step of node's path normalization: skip `.`, pop on `..`
(`..` above the root is dropped), keep any other segment. -/
def normStep (acc : List String) (seg : String) : List String :=
  if seg = "." then acc
  else if seg = ".." then acc.dropLast
  else acc ++ [seg]

/-- Resolve `.` and `..` segments of an absolute path, as node's
`path.resolve` normalization does. -/
def normalizeSegs (segs : List String) : List String :=
  segs.foldl normStep []

/-- Join segments with slashes. -/
def joinSegs : List String → String
  | [] => ""
  | [s] => s
  | s :: rest => s ++ "/" ++ joinSegs rest

/-- Build an absolute path string from segments. -/
def absOfSegs (segs : List String) : String := "/" ++ joinSegs segs

/-- Node's `path.isAbsolute` check: first character is a slash. -/
def isAbsolutePath (s : String) : Bool := s.data.head? = some '/'

/-- `path.resolve(p)` with one argument: resolve against the working
directory (assumed absolute). -/
def pathResolveOne (cwd p : String) : String :=
  if isAbsolutePath p then absOfSegs (normalizeSegs (pathSegments p))
  else absOfSegs (normalizeSegs (pathSegments cwd ++ pathSegments p))

/-- `path.resolve(base, p)` with two arguments. -/
def pathResolveTwo (cwd base p : String) : String :=
  if isAbsolutePath p then absOfSegs (normalizeSegs (pathSegments p))
  else if isAbsolutePath base then
    absOfSegs (normalizeSegs (pathSegments base ++ pathSegments p))
  else absOfSegs (normalizeSegs (pathSegments cwd ++ pathSegments base ++ pathSegments p))

/-- Node's posix `path.dirname`. -/
def pathDirname (p : String) : String :=
  match p.data with
  | [] => "."
  | c0 :: body =>
    let r := body.reverse
    let r1 := r.dropWhile (fun c => c = '/')
    let r2 := r1.dropWhile (fun c => c ≠ '/')
    match r2 with
    | [] => if c0 = '/' then "/" else "."
    | _ :: rest => String.mk (c0 :: rest.reverse)

example : pathDirname "/proj/story/main.ink" = "/proj/story" := by decide
example : pathResolveTwo "/cwd" "/proj/story" "other.ink" = "/proj/story/other.ink" := by decide
example : pathResolveTwo "/cwd" "/proj/story" "/abs/x.ink" = "/abs/x.ink" := by decide
example : pathResolveOne "/cwd" "." = "/cwd" := by decide
example : pathResolveOne "/cwd" "tmp/out" = "/cwd/tmp/out" := by decide

/-- JS `Map.get`: lookup in an insertion-ordered association list. -/
def cacheGet (cache : List (String × String)) (k : String) : Option String :=
  match cache with
  | [] => none
  | (k2, v) :: rest => if k2 = k then some v else cacheGet rest k

/-- JS `Map.set`: overwrite in place or append at the end. -/
def cacheSet (cache : List (String × String)) (k v : String) : List (String × String) :=
  match cache with
  | [] => [(k, v)]
  | (k2, v2) :: rest => if k2 = k then (k, v) :: rest else (k2, v2) :: cacheSet rest k v

/-- The filesystem visible to one invocation: file contents plus the set
of directories that exist. -/
structure FS where
  files : List (String × String)
  dirs : List String
  deriving DecidableEq

/-- `fs.readFile`: `none` models a rejected read (e.g. ENOENT). -/
def fsReadFile (fs : FS) (p : String) : Option String := cacheGet fs.files p

/-- `fs.rm(p, force: true)`: remove the entry if present; a missing file
is not an error (the call never fails in this model). -/
def fsRm (fs : FS) (p : String) : FS :=
  ⟨fs.files.filter (fun kv => kv.1 ≠ p), fs.dirs⟩

/-- `fs.mkdir(d, recursive: true)`: record the directory as existing. -/
def mkdirRecursive (fs : FS) (d : String) : FS := ⟨fs.files, d :: fs.dirs⟩

/-- JSON values, for the `stats` object carried by compiler events. -/
inductive Json where
  | null : Json
  | bool (b : Bool) : Json
  | num (n : Int) : Json
  | str (s : String) : Json
  | arr (xs : List Json) : Json
  | obj (fields : List (String × Json)) : Json

/-- Hex digit characters for JSON escapes. -/
def hexChar (n : Nat) : Char :=
  if n < 10 then Char.ofNat (48 + n) else Char.ofNat (87 + n)

/-- JSON escaping of a single character, as `JSON.stringify` performs. -/
def jsonEscapeChar (c : Char) : List Char :=
  if c = '"' then ['\\', '"']
  else if c = '\\' then ['\\', '\\']
  else if c = '\n' then ['\\', 'n']
  else if c = '\r' then ['\\', 'r']
  else if c = '\t' then ['\\', 't']
  else if c = Char.ofNat 8 then ['\\', 'b']
  else if c = Char.ofNat 12 then ['\\', 'f']
  else if c.toNat < 32 then
    ['\\', 'u', '0', '0', hexChar (c.toNat / 16), hexChar (c.toNat % 16)]
  else [c]

/-- Quote a string as a JSON string literal. -/
def jsonQuote (s : String) : String :=
  String.mk (['"'] ++ (s.data.map jsonEscapeChar).flatten ++ ['"'])

/-- `JSON.stringify` (no spacing), the serialization used for stats. -/
def Json.stringify : Json → String
  | .null => "null"
  | .bool b => if b then "true" else "false"
  | .num n => toString n
  | .str s => jsonQuote s
  | .arr xs =>
    "[" ++ String.intercalate "," (xs.attach.map (fun x => Json.stringify x.1)) ++ "]"
  | .obj fields =>
    "\x7b" ++ String.intercalate ","
        (fields.attach.map (fun kv => jsonQuote kv.1.1 ++ ":" ++ Json.stringify kv.1.2))
      ++ "\x7d"
termination_by j => sizeOf j
decreasing_by
  · have h1 := List.sizeOf_lt_of_mem x.2
    simp only [Json.arr.sizeOf_spec]
    omega
  · have h1 := List.sizeOf_lt_of_mem kv.2
    have h2 : sizeOf kv.1.2 < sizeOf kv.1 := by
      rcases kv.1 with ⟨a, b⟩
      simp only [Prod.mk.sizeOf_spec]
      omega
    simp only [Json.obj.sizeOf_spec]
    omega

/-- JS truthiness of a JSON value (the `stats` local in onLoad). -/
def jsTruthyJson : Json → Bool
  | .null => false
  | .bool b => b
  | .num n => n ≠ 0
  | .str s => s ≠ ""
  | .arr _ => true
  | .obj _ => true

/-- esbuild `PartialMessage.location`, the fields this plugin fills. -/
structure PartialLocation where
  file : String
  line : Nat
  lineText : Option String
  deriving DecidableEq

/-- esbuild `PartialMessage`, the fields this plugin fills. -/
structure PartialMessage where
  text : String
  location : Option PartialLocation
  deriving DecidableEq

/-- Per-invocation compile context from src/index.mts. -/
structure CompileContext where
  fileCacheForBuild : List (String × String)
  inkContainingDir : String
  deriving DecidableEq

/-- Errors that make the onLoad callback reject: a process-level error,
or a rejected file read. -/
inductive LoadError where
  | processError : LoadError
  | readError (path : String) : LoadError
  deriving DecidableEq

/-- `path.resolve(context.inkContainingDir, file)` from readFileForMessage. -/
def resolveIssuePath (cwd : String) (context : CompileContext) (file : String) : String :=
  pathResolveTwo cwd context.inkContainingDir file

/-- JS `s.split("\n")` over the character list (note a trailing newline
yields a final empty piece, and the empty string yields one piece). -/
def splitLinesAux : List Char → List Char → List String
  | [], acc => [String.mk acc.reverse]
  | c :: cs, acc =>
    if c = '\n' then String.mk acc.reverse :: splitLinesAux cs []
    else splitLinesAux cs (c :: acc)

/-- JS `fileText.split("\n")`. -/
def jsSplitNewline (s : String) : List String := splitLinesAux s.data []

/-- The message record built by readFileForMessage: text, resolved file,
line number, and the (line-1)-indexed line of the file's text. -/
def buildMessage (text resolvedPath : String) (line : Nat) (fileText : String) : PartialMessage :=
  ⟨text, some ⟨resolvedPath, line, jsIndex (jsSplitNewline fileText) ((line : Int) - 1)⟩⟩

/-- `readFileForMessage` from src/index.mts: resolve the referenced file
against the ink-containing directory, read it through the per-build
cache, and extract the referenced line as lineText. -/
def readFileForMessage (cwd file : String) (line : Nat) (text : String)
    (context : CompileContext) (fs : FS) :
    Except LoadError (PartialMessage × CompileContext) :=
  match cacheGet context.fileCacheForBuild (resolveIssuePath cwd context file) with
  | some fileText =>
    .ok (buildMessage text (resolveIssuePath cwd context file) line fileText,
      ⟨cacheSet context.fileCacheForBuild (resolveIssuePath cwd context file) fileText,
        context.inkContainingDir⟩)
  | none =>
    match fsReadFile fs (resolveIssuePath cwd context file) with
    | some fileText =>
      .ok (buildMessage text (resolveIssuePath cwd context file) line fileText,
        ⟨cacheSet context.fileCacheForBuild (resolveIssuePath cwd context file) fileText,
          context.inkContainingDir⟩)
    | none => .error (.readError (resolveIssuePath cwd context file))

/-- The tagged union returned by createESBuildMessageForIssue. -/
inductive TaggedMessage where
  | error (m : PartialMessage) : TaggedMessage
  | warning (m : PartialMessage) : TaggedMessage
  deriving DecidableEq

/-- `createESBuildMessageForIssue` from src/index.mts: try the error
regex first, then the warning regex, else fall back to an unlocated
error message carrying the raw issue text. -/
def createESBuildMessageForIssue (cwd issue : String) (context : CompileContext) (fs : FS) :
    Except LoadError (TaggedMessage × CompileContext) :=
  match errorRegexMatch issue with
  | some m =>
    match readFileForMessage cwd m.file (parseIntDigits m.lineDigits) m.message context fs with
    | .error e => .error e
    | .ok (msg, ctx2) => .ok (.error msg, ctx2)
  | none =>
    match warningRegexMatch issue with
    | some m =>
      match readFileForMessage cwd m.file (parseIntDigits m.lineDigits) m.message context fs with
      | .error e => .error e
      | .ok (msg, ctx2) => .ok (.warning msg, ctx2)
    | none => .ok (.error ⟨issue, none⟩, context)

/-- The error component of a tagged message, if any. -/
def errPart : TaggedMessage → Option PartialMessage
  | .error m => some m
  | .warning _ => none

/-- The warning component of a tagged message, if any. -/
def warnPart : TaggedMessage → Option PartialMessage
  | .error _ => none
  | .warning m => some m

/-- The issue loop of onLoad: translate each accumulated issue in order,
pushing errors and warnings onto their respective accumulators. -/
def issueLoop (cwd : String) :
    List String → CompileContext → FS → List PartialMessage → List PartialMessage →
    Except LoadError (List PartialMessage × List PartialMessage × CompileContext)
  | [], ctx, _, errs, warns => .ok (errs, warns, ctx)
  | issue :: rest, ctx, fs, errs, warns =>
    match createESBuildMessageForIssue cwd issue ctx fs with
    | .error e => .error e
    | .ok (.error m, ctx1) => issueLoop cwd rest ctx1 fs (errs ++ [m]) warns
    | .ok (.warning m, ctx1) => issueLoop cwd rest ctx1 fs errs (warns ++ [m])

/-- The translated message sequence, in issue order, with the threaded
cache context; used to state the ordering and partition properties. -/
def translateIssues (cwd : String) :
    List String → CompileContext → FS →
    Except LoadError (List TaggedMessage × CompileContext)
  | [], ctx, _ => .ok ([], ctx)
  | issue :: rest, ctx, fs =>
    match createESBuildMessageForIssue cwd issue ctx fs with
    | .error e => .error e
    | .ok (tm, ctx1) =>
      match translateIssues cwd rest ctx1 fs with
      | .error e => .error e
      | .ok (tms, ctx2) => .ok (tm :: tms, ctx2)

/-- One parsed line of inklecate's stdout: a JSON object with any of
the four recognized keys (a missing key is `none`). -/
structure CompilerEvent where
  compileSuccess : Option Bool
  issues : Option (List String)
  exportComplete : Option Bool
  stats : Option Json

/-- The run state accumulated by the stdout handler of onLoad. -/
structure RunState where
  success : Bool
  exported : Bool
  issues : List String
  stats : Option Json

/-- The four `in`-guarded updates of the stdout readable handler. -/
def applyEvent (s : RunState) (e : CompilerEvent) : RunState :=
  let s1 : RunState :=
    match e.compileSuccess with
    | some b => ⟨b, s.exported, s.issues, s.stats⟩
    | none => s
  let s2 : RunState :=
    match e.issues with
    | some is => ⟨s1.success, s1.exported, s1.issues ++ is, s1.stats⟩
    | none => s1
  let s3 : RunState :=
    match e.exportComplete with
    | some b => ⟨s2.success, b, s2.issues, s2.stats⟩
    | none => s2
  match e.stats with
  | some stj => ⟨s3.success, s3.exported, s3.issues, some stj⟩
  | none => s3

/-- `success = false`, `exported = false`, `issues = []`,
`stats = undefined`: the locals before any event arrives. -/
def initialRunState : RunState := ⟨false, false, [], none⟩

/-- The run state after all events received before process exit. -/
def accumulateEvents (events : List CompilerEvent) : RunState :=
  events.foldl applyEvent initialRunState

/-- Plugin options (src/index.mts `InklecatePluginOptions`); every field
is optional, as in the TypeScript interface. -/
structure InklecatePluginOptions where
  count : Option Bool
  stats : Option Bool
  inklecatePluginsDir : Option String
  tempOutputDir : Option String
  deriving DecidableEq

/-- JS truthiness of an optional boolean option. -/
def jsTruthyOptBool : Option Bool → Bool
  | some b => b
  | none => false

/-- JS truthiness of an optional string option: nonempty string. -/
def jsTruthyOptStr : Option String → Bool
  | some s => s ≠ ""
  | none => false

/-- The per-invocation inputs of one onLoad call: the working directory,
the loaded file's path, the random UUID, the parsed stdout events
received before exit, and whether the process emitted an error. -/
structure OnLoadInput where
  cwd : String
  argsPath : String
  uuid : String
  events : List CompilerEvent
  procError : Bool

/-- The esbuild OnLoadResult fields this plugin produces. -/
structure OnLoadResult where
  errors : List PartialMessage
  warnings : List PartialMessage
  contents : Option String
  loader : Option String
  deriving DecidableEq

/-- The observable outcome of one onLoad call: its returned (or thrown)
result, the filesystem afterwards, and whether the compiled story
output file was read. -/
structure OnLoadOutcome where
  result : Except LoadError OnLoadResult
  fs : FS
  readStoryOutput : Bool

/-- `path.resolve(options?.tempOutputDir ?? ".")` from onLoad. -/
def onLoadOutputDir (opts : InklecatePluginOptions) (inp : OnLoadInput) : String :=
  pathResolveOne inp.cwd (opts.tempOutputDir.getD ".")

/-- `path.resolve(outputDir, crypto.randomUUID() + ".json")` from onLoad. -/
def onLoadOutputPath (opts : InklecatePluginOptions) (inp : OnLoadInput) : String :=
  pathResolveTwo inp.cwd (onLoadOutputDir opts inp) (inp.uuid ++ ".json")

/-- The argument vector built by onLoad before spawning inklecate. -/
def onLoadArgs (opts : InklecatePluginOptions) (inp : OnLoadInput) : List String :=
  let a1 := if jsTruthyOptBool opts.count then ["-j"] ++ ["-c"] else ["-j"]
  let a2 := if jsTruthyOptBool opts.stats then a1 ++ ["-s"] else a1
  let a3 :=
    match opts.inklecatePluginsDir with
    | some d => if d ≠ "" then a2 ++ ["-x", d] else a2
    | none => a2
  a3 ++ ["-o", onLoadOutputPath opts inp] ++ [inp.argsPath]

/-- The compile context constructed by onLoad: an empty cache and the
directory of the file submitted for compilation. -/
def onLoadContext (inp : OnLoadInput) : CompileContext :=
  ⟨[], pathDirname inp.argsPath⟩

/-- The non-stats tail of the result assembly: the failure branch, the
export-complete read, and the empty-contents success branch, each
followed by the finally-block removal of the output file. -/
def onLoadNonStats (errors warnings : List PartialMessage) (st : RunState)
    (fs1 : FS) (outputPath : String) : OnLoadOutcome :=
  if !st.success then
    ⟨.ok ⟨errors, warnings, none, none⟩, fsRm fs1 outputPath, false⟩
  else if st.exported then
    match fsReadFile fs1 outputPath with
    | some c => ⟨.ok ⟨errors, warnings, some c, some "json"⟩, fsRm fs1 outputPath, true⟩
    | none => ⟨.error (.readError outputPath), fsRm fs1 outputPath, true⟩
  else ⟨.ok ⟨errors, warnings, none, some "json"⟩, fsRm fs1 outputPath, false⟩

/-- The whole onLoad callback of src/index.mts, after the process has
exited (or errored): accumulate events, translate issues, assemble the
result in the stats / failure / export order, and in every case remove
the temporary output file as the final step (the `finally` block). -/
def onLoad (opts : InklecatePluginOptions) (inp : OnLoadInput) (fs : FS) : OnLoadOutcome :=
  let fs1 := mkdirRecursive fs (onLoadOutputDir opts inp)
  let outputPath := onLoadOutputPath opts inp
  let st := accumulateEvents inp.events
  if inp.procError then
    ⟨.error .processError, fsRm fs1 outputPath, false⟩
  else
    match issueLoop inp.cwd st.issues (onLoadContext inp) fs1 [] [] with
    | .error e => ⟨.error e, fsRm fs1 outputPath, false⟩
    | .ok (errors, warnings, _) =>
      match st.stats with
      | some sj =>
        if jsTruthyJson sj && jsTruthyOptBool opts.stats then
          ⟨.ok ⟨errors, warnings, some (Json.stringify sj), some "json"⟩,
            fsRm fs1 outputPath, false⟩
        else onLoadNonStats errors warnings st fs1 outputPath
      | none => onLoadNonStats errors warnings st fs1 outputPath

lemma getLastD_cons {α : Type} (l : List α) :
    ∀ (a d : α), ((a :: l).getLast?).getD d = (l.getLast?).getD a := by
  induction l with
  | nil => intro a d; rfl
  | cons b l ih =>
    intro a d
    rw [List.getLast?_cons_cons, ih b d, ih b a]

lemma getLast?_or_cons {α : Type} (l : List α) :
    ∀ (a : α) (x : Option α), ((a :: l).getLast?).or x = (l.getLast?).or (some a) := by
  induction l with
  | nil => intro a x; rfl
  | cons b l ih =>
    intro a x
    rw [List.getLast?_cons_cons, ih b x, ih b (some a)]

lemma applyEvent_success (s : RunState) (e : CompilerEvent) :
    (applyEvent s e).success = (e.compileSuccess).getD s.success := by
  rcases e with ⟨cs, is, ec, st⟩
  cases cs <;> cases is <;> cases ec <;> cases st <;> rfl

lemma applyEvent_exported (s : RunState) (e : CompilerEvent) :
    (applyEvent s e).exported = (e.exportComplete).getD s.exported := by
  rcases e with ⟨cs, is, ec, st⟩
  cases cs <;> cases is <;> cases ec <;> cases st <;> rfl

lemma applyEvent_stats (s : RunState) (e : CompilerEvent) :
    (applyEvent s e).stats = (e.stats).or s.stats := by
  rcases e with ⟨cs, is, ec, st⟩
  cases cs <;> cases is <;> cases ec <;> cases st <;> rfl

lemma applyEvent_issues (s : RunState) (e : CompilerEvent) :
    (applyEvent s e).issues = s.issues ++ (e.issues).getD [] := by
  rcases e with ⟨cs, is, ec, st⟩
  cases cs <;> cases is <;> cases ec <;> cases st <;> simp [applyEvent]

lemma foldl_applyEvent_success (events : List CompilerEvent) :
    ∀ s0 : RunState, (events.foldl applyEvent s0).success =
      ((events.filterMap (fun e => e.compileSuccess)).getLast?).getD s0.success := by
  induction events with
  | nil => intro s0; rfl
  | cons e es ih =>
    intro s0
    rw [List.foldl_cons, ih (applyEvent s0 e), List.filterMap_cons]
    cases h : e.compileSuccess with
    | none => rw [applyEvent_success, h]; rfl
    | some b => rw [applyEvent_success, h, getLastD_cons]; rfl

lemma foldl_applyEvent_exported (events : List CompilerEvent) :
    ∀ s0 : RunState, (events.foldl applyEvent s0).exported =
      ((events.filterMap (fun e => e.exportComplete)).getLast?).getD s0.exported := by
  induction events with
  | nil => intro s0; rfl
  | cons e es ih =>
    intro s0
    rw [List.foldl_cons, ih (applyEvent s0 e), List.filterMap_cons]
    cases h : e.exportComplete with
    | none => rw [applyEvent_exported, h]; rfl
    | some b => rw [applyEvent_exported, h, getLastD_cons]; rfl

lemma foldl_applyEvent_stats (events : List CompilerEvent) :
    ∀ s0 : RunState, (events.foldl applyEvent s0).stats =
      ((events.filterMap (fun e => e.stats)).getLast?).or s0.stats := by
  induction events with
  | nil => intro s0; rfl
  | cons e es ih =>
    intro s0
    rw [List.foldl_cons, ih (applyEvent s0 e), List.filterMap_cons]
    cases h : e.stats with
    | none => rw [applyEvent_stats, h]; rfl
    | some j => rw [applyEvent_stats, h, getLast?_or_cons]; rfl

lemma foldl_applyEvent_issues (events : List CompilerEvent) :
    ∀ s0 : RunState, (events.foldl applyEvent s0).issues =
      s0.issues ++ (events.filterMap (fun e => e.issues)).flatten := by
  induction events with
  | nil => intro s0; simp
  | cons e es ih =>
    intro s0
    rw [List.foldl_cons, ih (applyEvent s0 e), List.filterMap_cons]
    cases h : e.issues with
    | none => rw [applyEvent_issues, h]; simp
    | some is => rw [applyEvent_issues, h]; simp

/-- C7: the accumulated run state after a sequence of parsed events:
the success flag is the `compile-success` value of the last event
carrying that key (false when none does), the export flag likewise for
`export-complete`, the stats holder is the `stats` object of the last
event carrying it, and the issue list is the in-order concatenation of
all `issues` arrays. -/
theorem accumulateEvents_spec (events : List CompilerEvent) :
    (accumulateEvents events).success =
        ((events.filterMap (fun e => e.compileSuccess)).getLast?).getD false
    ∧ (accumulateEvents events).exported =
        ((events.filterMap (fun e => e.exportComplete)).getLast?).getD false
    ∧ (accumulateEvents events).stats =
        (events.filterMap (fun e => e.stats)).getLast?
    ∧ (accumulateEvents events).issues =
        (events.filterMap (fun e => e.issues)).flatten := by
  refine ⟨?_, ?_, ?_, ?_⟩
  · exact foldl_applyEvent_success events initialRunState
  · exact foldl_applyEvent_exported events initialRunState
  · rw [accumulateEvents, foldl_applyEvent_stats events initialRunState]
    exact Option.or_none
  · exact foldl_applyEvent_issues events initialRunState

lemma issueLoop_eq_translate (cwd : String) (fs : FS) :
    ∀ (issues : List String) (ctx : CompileContext) (E W : List PartialMessage),
    issueLoop cwd issues ctx fs E W =
      (translateIssues cwd issues ctx fs).map
        (fun r => (E ++ r.1.filterMap errPart, W ++ r.1.filterMap warnPart, r.2)) := by
  intro issues
  induction issues with
  | nil => intro ctx E W; simp [issueLoop, translateIssues, Except.map]
  | cons issue rest ih =>
    intro ctx E W
    cases h : createESBuildMessageForIssue cwd issue ctx fs with
    | error e => simp [issueLoop, translateIssues, h, Except.map]
    | ok p =>
      rcases p with ⟨tm, ctx1⟩
      cases tm with
      | error m =>
        simp only [issueLoop, translateIssues, h]
        rw [ih ctx1 (E ++ [m]) W]
        cases h2 : translateIssues cwd rest ctx1 fs with
        | error e => simp [h2, Except.map]
        | ok q =>
          rcases q with ⟨tms, ctx2⟩
          simp [h2, Except.map, errPart, warnPart, List.filterMap_cons]
      | warning m =>
        simp only [issueLoop, translateIssues, h]
        rw [ih ctx1 E (W ++ [m])]
        cases h2 : translateIssues cwd rest ctx1 fs with
        | error e => simp [h2, Except.map]
        | ok q =>
          rcases q with ⟨tms, ctx2⟩
          simp [h2, Except.map, errPart, warnPart, List.filterMap_cons]

lemma translateIssues_length (cwd : String) (fs : FS) :
    ∀ (issues : List String) (ctx : CompileContext) (tms : List TaggedMessage)
      (ctx2 : CompileContext),
    translateIssues cwd issues ctx fs = .ok (tms, ctx2) → tms.length = issues.length := by
  intro issues
  induction issues with
  | nil =>
    intro ctx tms ctx2 h
    rw [translateIssues] at h
    cases h
    rfl
  | cons issue rest ih =>
    intro ctx tms ctx2 h
    cases hc : createESBuildMessageForIssue cwd issue ctx fs with
    | error e => simp only [translateIssues, hc] at h; cases h
    | ok p =>
      rcases p with ⟨tm, ctx1⟩
      simp only [translateIssues, hc] at h
      cases ht : translateIssues cwd rest ctx1 fs with
      | error e => rw [ht] at h; cases h
      | ok q =>
        rcases q with ⟨tms1, ctxb⟩
        rw [ht] at h
        have hlen := ih ctx1 tms1 ctxb ht
        cases h
        simp only [List.length_cons]
        omega

lemma tagged_part_lengths :
    ∀ tms : List TaggedMessage,
    (tms.filterMap errPart).length + (tms.filterMap warnPart).length = tms.length := by
  intro tms
  induction tms with
  | nil => rfl
  | cons tm rest ih =>
    cases tm with
    | error m => simp [List.filterMap_cons, errPart, warnPart]; omega
    | warning m => simp [List.filterMap_cons, errPart, warnPart]; omega

/-- C5: the issue loop processes issues in list order and partitions
the translated message sequence into the errors accumulator and the
warnings accumulator, each preserving the relative order of its
severity class within the original issue order. -/
theorem issueLoop_partition_ordered (cwd : String) (fs : FS)
    (issues : List String) (ctx : CompileContext) :
    issueLoop cwd issues ctx fs [] [] =
      (translateIssues cwd issues ctx fs).map
        (fun r => (r.1.filterMap errPart, r.1.filterMap warnPart, r.2)) := by
  rw [issueLoop_eq_translate cwd fs issues ctx [] []]
  cases h : translateIssues cwd issues ctx fs with
  | error e => rfl
  | ok q => simp

/-- C4: an issue string matching neither diagnostic pattern becomes an
error-severity message whose text is the raw issue string with no
location, and every accumulated issue yields exactly one message, so no
diagnostic is dropped. -/
theorem unmatched_issue_fallback :
    (∀ (cwd issue : String) (ctx : CompileContext) (fs : FS),
      errorRegexMatch issue = none → warningRegexMatch issue = none →
      createESBuildMessageForIssue cwd issue ctx fs = .ok (.error ⟨issue, none⟩, ctx))
    ∧ (∀ (cwd : String) (issues : List String) (ctx : CompileContext) (fs : FS)
        (E W : List PartialMessage) (ctx2 : CompileContext),
      issueLoop cwd issues ctx fs [] [] = .ok (E, W, ctx2) →
      E.length + W.length = issues.length) := by
  constructor
  · intro cwd issue ctx fs h1 h2
    rw [createESBuildMessageForIssue, h1, h2]
  · intro cwd issues ctx fs E W ctx2 h
    rw [issueLoop_eq_translate cwd fs issues ctx [] []] at h
    cases ht : translateIssues cwd issues ctx fs with
    | error e => rw [ht] at h; cases h
    | ok q =>
      rcases q with ⟨tms, ctxb⟩
      rw [ht] at h
      cases h
      simp only [List.nil_append]
      rw [tagged_part_lengths tms, translateIssues_length cwd fs issues ctx tms ctxb ht]

/-- C4 witness: two pattern-less issues produce exactly two unlocated
error messages. -/
theorem unmatched_issue_fallback_witness :
    createESBuildMessageForIssue "/cwd" "plain text issue" ⟨[], "/proj"⟩ ⟨[], []⟩ =
        .ok (.error ⟨"plain text issue", none⟩, ⟨[], "/proj"⟩)
    ∧ ([(⟨"alpha", none⟩ : PartialMessage), ⟨"beta", none⟩].length + ([] : List PartialMessage).length
        = ["alpha", "beta"].length) := by
  constructor
  · exact unmatched_issue_fallback.1 "/cwd" "plain text issue" ⟨[], "/proj"⟩ ⟨[], []⟩ rfl rfl
  · exact unmatched_issue_fallback.2 "/cwd" ["alpha", "beta"] ⟨[], "/proj"⟩ ⟨[], []⟩
      [⟨"alpha", none⟩, ⟨"beta", none⟩] [] ⟨[], "/proj"⟩ rfl

lemma fsReadFile_mkdir (fs : FS) (d p : String) :
    fsReadFile (mkdirRecursive fs d) p = fsReadFile fs p := rfl

lemma cacheGet_filter_ne (p : String) :
    ∀ l : List (String × String), cacheGet (l.filter (fun kv => kv.1 ≠ p)) p = none := by
  intro l
  induction l with
  | nil => rfl
  | cons kv rest ih =>
    rcases kv with ⟨k, v⟩
    rw [List.filter_cons]
    by_cases hk : k = p
    · rw [if_neg (by simp [hk])]
      exact ih
    · rw [if_pos (by simp [hk])]
      rw [cacheGet, if_neg hk]
      exact ih

lemma fsReadFile_fsRm (fs : FS) (p : String) : fsReadFile (fsRm fs p) p = none := by
  rw [fsReadFile, fsRm]
  exact cacheGet_filter_ne p fs.files

lemma fsRm_of_missing (g : FS) (p : String) (h : fsReadFile g p = none) : fsRm g p = g := by
  rcases g with ⟨files, dirs⟩
  rw [fsRm]
  rw [fsReadFile] at h
  congr 1
  induction files with
  | nil => rfl
  | cons kv rest ih =>
    rcases kv with ⟨k, v⟩
    rw [cacheGet] at h
    by_cases hk : k = p
    · rw [if_pos hk] at h; cases h
    · rw [if_neg hk] at h
      rw [List.filter_cons]
      rw [if_pos (by simp [hk])]
      rw [ih h]

lemma onLoad_fs_eq (opts : InklecatePluginOptions) (inp : OnLoadInput) (fs : FS) :
    (onLoad opts inp fs).fs =
      fsRm (mkdirRecursive fs (onLoadOutputDir opts inp)) (onLoadOutputPath opts inp) := by
  have hns : ∀ E W st fs1 p, (onLoadNonStats E W st fs1 p).fs = fsRm fs1 p := by
    intro E W st fs1 p
    rw [onLoadNonStats]
    split
    · rfl
    · split
      · split <;> rfl
      · rfl
  rw [onLoad]
  split
  · rfl
  · split
    · rfl
    · split
      · split
        · rfl
        · exact hns _ _ _ _ _
      · exact hns _ _ _ _ _

/-- C1: on every invocation — normal return, failure result, or thrown
error (process error, diagnostic translation, output-file read) — the
final filesystem no longer contains the generated temporary output
file: the finally-block removal is unconditional, and removing a
missing file is a no-op rather than an error. -/
theorem onLoad_cleanup_always (opts : InklecatePluginOptions) (inp : OnLoadInput) (fs : FS) :
    fsReadFile (onLoad opts inp fs).fs (onLoadOutputPath opts inp) = none
    ∧ (onLoad opts inp fs).fs =
        fsRm (mkdirRecursive fs (onLoadOutputDir opts inp)) (onLoadOutputPath opts inp)
    ∧ (∀ (g : FS) (p : String), fsReadFile g p = none → fsRm g p = g) := by
  refine ⟨?_, onLoad_fs_eq opts inp fs, fsRm_of_missing⟩
  rw [onLoad_fs_eq opts inp fs]
  exact fsReadFile_fsRm _ _

/-- C1 witness: a process-error invocation still ends with the
temporary file removed, and removal of a missing file is the identity. -/
theorem onLoad_cleanup_always_witness :
    fsReadFile
        (onLoad ⟨none, none, none, none⟩ ⟨"/cwd", "/proj/main.ink", "u1", [], true⟩
          ⟨[("/cwd/u1.json", "story")], []⟩).fs
        (onLoadOutputPath ⟨none, none, none, none⟩ ⟨"/cwd", "/proj/main.ink", "u1", [], true⟩)
      = none
    ∧ fsRm (⟨[("/a", "x")], []⟩ : FS) "/b" = ⟨[("/a", "x")], []⟩ := by
  constructor
  · exact (onLoad_cleanup_always ⟨none, none, none, none⟩
      ⟨"/cwd", "/proj/main.ink", "u1", [], true⟩ ⟨[("/cwd/u1.json", "story")], []⟩).1
  · exact (onLoad_cleanup_always ⟨none, none, none, none⟩
      ⟨"/cwd", "/proj/main.ink", "u1", [], true⟩ ⟨[("/cwd/u1.json", "story")], []⟩).2.2
      ⟨[("/a", "x")], []⟩ "/b" rfl

/-- C2: when the stats option is enabled and a stats event was received
(the holder carries the last-received stats object), the result's
contents are the JSON serialization of that object together with the
accumulated errors and warnings, and the compiled story output file is
not read; no hypothesis on the success flag is needed, since this
branch precedes the success check. -/
theorem onLoad_stats_branch (opts : InklecatePluginOptions) (inp : OnLoadInput) (fs : FS)
    (E W : List PartialMessage) (ctx2 : CompileContext) (flds : List (String × Json))
    (hstats : opts.stats = some true)
    (hrecv : (accumulateEvents inp.events).stats = some (Json.obj flds))
    (hproc : inp.procError = false)
    (hloop : issueLoop inp.cwd (accumulateEvents inp.events).issues (onLoadContext inp)
        (mkdirRecursive fs (onLoadOutputDir opts inp)) [] [] = .ok (E, W, ctx2)) :
    (onLoad opts inp fs).result =
        .ok ⟨E, W, some (Json.stringify (Json.obj flds)), some "json"⟩
    ∧ (onLoad opts inp fs).readStoryOutput = false := by
  constructor <;>
    simp [onLoad, hproc, hloop, hrecv, hstats, jsTruthyJson, jsTruthyOptBool]

/-- C2 witness: a failed compile (compile-success false) with a stats
event and stats mode still returns the serialized stats object and
does not read the story output. -/
theorem onLoad_stats_branch_witness :
    (onLoad ⟨none, some true, none, none⟩
        ⟨"/cwd", "/proj/main.ink", "u2",
          [⟨some false, none, none, some (Json.obj [("words", Json.num 3)])⟩], false⟩
        ⟨[], []⟩).result =
      .ok ⟨[], [], some (Json.stringify (Json.obj [("words", Json.num 3)])), some "json"⟩ := by
  exact (onLoad_stats_branch ⟨none, some true, none, none⟩
    ⟨"/cwd", "/proj/main.ink", "u2",
      [⟨some false, none, none, some (Json.obj [("words", Json.num 3)])⟩], false⟩
    ⟨[], []⟩ [] [] ⟨[], "/proj"⟩ [("words", Json.num 3)] rfl rfl rfl rfl).1

/-- The condition under which the stats branch of the result assembly
is taken: a truthy stats holder and a truthy stats option. -/
def statsBranchTaken (opts : InklecatePluginOptions) (st : RunState) : Bool :=
  match st.stats with
  | some sj => jsTruthyJson sj && jsTruthyOptBool opts.stats
  | none => false

/-- C3: outside the stats branch, a false success flag yields a result
with only the accumulated errors and warnings (no contents and no
loader); a true success flag yields the full contents of the temporary
output file when the export flag is set, and no contents otherwise,
with loader json and the accumulated errors and warnings in both
cases. -/
theorem onLoad_result_assembly_nonstats (opts : InklecatePluginOptions) (inp : OnLoadInput)
    (fs : FS) (E W : List PartialMessage) (ctx2 : CompileContext)
    (hbranch : statsBranchTaken opts (accumulateEvents inp.events) = false)
    (hproc : inp.procError = false)
    (hloop : issueLoop inp.cwd (accumulateEvents inp.events).issues (onLoadContext inp)
        (mkdirRecursive fs (onLoadOutputDir opts inp)) [] [] = .ok (E, W, ctx2)) :
    ((accumulateEvents inp.events).success = false →
      (onLoad opts inp fs).result = .ok ⟨E, W, none, none⟩)
    ∧ ((accumulateEvents inp.events).success = true →
        (accumulateEvents inp.events).exported = false →
        (onLoad opts inp fs).result = .ok ⟨E, W, none, some "json"⟩)
    ∧ (∀ c : String, (accumulateEvents inp.events).success = true →
        (accumulateEvents inp.events).exported = true →
        fsReadFile fs (onLoadOutputPath opts inp) = some c →
        (onLoad opts inp fs).result = .ok ⟨E, W, some c, some "json"⟩) := by
  cases hst : (accumulateEvents inp.events).stats with
  | none =>
    refine ⟨?_, ?_, ?_⟩
    · intro hsucc
      simp [onLoad, onLoadNonStats, hproc, hloop, hst, hsucc]
    · intro hsucc hexp
      simp [onLoad, onLoadNonStats, hproc, hloop, hst, hsucc, hexp]
    · intro c hsucc hexp hread
      simp [onLoad, onLoadNonStats, hproc, hloop, hst, hsucc, hexp,
        fsReadFile_mkdir, hread]
  | some sj =>
    have hcond : (jsTruthyJson sj && jsTruthyOptBool opts.stats) = false := by
      rw [statsBranchTaken, hst] at hbranch
      exact hbranch
    refine ⟨?_, ?_, ?_⟩
    · intro hsucc
      simp [onLoad, onLoadNonStats, hproc, hloop, hst, hcond, hsucc]
    · intro hsucc hexp
      simp [onLoad, onLoadNonStats, hproc, hloop, hst, hcond, hsucc, hexp]
    · intro c hsucc hexp hread
      simp [onLoad, onLoadNonStats, hproc, hloop, hst, hcond, hsucc, hexp,
        fsReadFile_mkdir, hread]

/-- C3 witness: a failing run returns only its diagnostics; a
successful exported run returns the output file's contents with loader
json. -/
theorem onLoad_result_assembly_nonstats_witness :
    (onLoad ⟨none, none, none, none⟩
        ⟨"/cwd", "/proj/main.ink", "u3", [⟨some false, none, none, none⟩], false⟩
        ⟨[], []⟩).result = .ok ⟨[], [], none, none⟩
    ∧ (onLoad ⟨none, none, none, none⟩
        ⟨"/cwd", "/proj/main.ink", "u4",
          [⟨some true, none, some true, none⟩], false⟩
        ⟨[("/cwd/u4.json", "STORY")], []⟩).result = .ok ⟨[], [], some "STORY", some "json"⟩ := by
  constructor
  · exact (onLoad_result_assembly_nonstats ⟨none, none, none, none⟩
      ⟨"/cwd", "/proj/main.ink", "u3", [⟨some false, none, none, none⟩], false⟩
      ⟨[], []⟩ [] [] ⟨[], "/proj"⟩ rfl rfl rfl).1 rfl
  · exact (onLoad_result_assembly_nonstats ⟨none, none, none, none⟩
      ⟨"/cwd", "/proj/main.ink", "u4", [⟨some true, none, some true, none⟩], false⟩
      ⟨[("/cwd/u4.json", "STORY")], []⟩ [] [] ⟨[], "/proj"⟩ rfl rfl rfl).2.2 "STORY" rfl rfl rfl

/-- C10: a located diagnostic — matching the error pattern or the
warning pattern — whose resolved file is neither cached nor readable
makes translation fail with that read error; the whole load then
rejects with the same error (no structured diagnostics are returned),
while the temporary output file is still removed. -/
theorem diag_read_failure_rejects :
    (∀ (cwd issue : String) (mi : IssueMatch) (ctx : CompileContext) (fs : FS),
      errorRegexMatch issue = some mi →
      cacheGet ctx.fileCacheForBuild (resolveIssuePath cwd ctx mi.file) = none →
      fsReadFile fs (resolveIssuePath cwd ctx mi.file) = none →
      createESBuildMessageForIssue cwd issue ctx fs =
        .error (.readError (resolveIssuePath cwd ctx mi.file)))
    ∧ (∀ (cwd issue : String) (mi : IssueMatch) (ctx : CompileContext) (fs : FS),
      errorRegexMatch issue = none →
      warningRegexMatch issue = some mi →
      cacheGet ctx.fileCacheForBuild (resolveIssuePath cwd ctx mi.file) = none →
      fsReadFile fs (resolveIssuePath cwd ctx mi.file) = none →
      createESBuildMessageForIssue cwd issue ctx fs =
        .error (.readError (resolveIssuePath cwd ctx mi.file)))
    ∧ (∀ (opts : InklecatePluginOptions) (inp : OnLoadInput) (fs : FS) (e : LoadError),
      inp.procError = false →
      issueLoop inp.cwd (accumulateEvents inp.events).issues (onLoadContext inp)
          (mkdirRecursive fs (onLoadOutputDir opts inp)) [] [] = .error e →
      (onLoad opts inp fs).result = .error e
      ∧ fsReadFile (onLoad opts inp fs).fs (onLoadOutputPath opts inp) = none) := by
  refine ⟨?_, ?_, ?_⟩
  · intro cwd issue mi ctx fs hm hcache hread
    simp only [createESBuildMessageForIssue, hm, readFileForMessage, hcache, hread]
  · intro cwd issue mi ctx fs hme hmw hcache hread
    simp only [createESBuildMessageForIssue, hme, hmw, readFileForMessage, hcache, hread]
  · intro opts inp fs e hproc hloop
    constructor
    · simp [onLoad, hproc, hloop]
    · rw [onLoad_fs_eq opts inp fs]
      exact fsReadFile_fsRm _ _

/-- C10 witness: an error diagnostic and a warning diagnostic each
naming a nonexistent file fail translation with that read error, and
the concrete invocation rejects with the error while the temporary
output file is still gone afterwards. -/
theorem diag_read_failure_rejects_witness :
    createESBuildMessageForIssue "/cwd"
        ("ERROR: " ++ quoted "missing.ink" ++ " line 1: x") ⟨[], "/proj"⟩ ⟨[], []⟩ =
      .error (.readError (resolveIssuePath "/cwd" ⟨[], "/proj"⟩ "missing.ink"))
    ∧ createESBuildMessageForIssue "/cwd"
        ("WARNING: " ++ quoted "missing2.ink" ++ " line 1: w") ⟨[], "/proj"⟩ ⟨[], []⟩ =
      .error (.readError (resolveIssuePath "/cwd" ⟨[], "/proj"⟩ "missing2.ink"))
    ∧ ((onLoad ⟨none, none, none, none⟩
        ⟨"/cwd", "/proj/main.ink", "u5",
          [⟨some false, some ["ERROR: " ++ quoted "missing.ink" ++ " line 1: x"], none, none⟩],
          false⟩ ⟨[], []⟩).result =
        .error (.readError "/proj/missing.ink")
      ∧ fsReadFile (onLoad ⟨none, none, none, none⟩
          ⟨"/cwd", "/proj/main.ink", "u5",
            [⟨some false, some ["ERROR: " ++ quoted "missing.ink" ++ " line 1: x"], none, none⟩],
            false⟩ ⟨[], []⟩).fs
          (onLoadOutputPath ⟨none, none, none, none⟩
            ⟨"/cwd", "/proj/main.ink", "u5",
              [⟨some false, some ["ERROR: " ++ quoted "missing.ink" ++ " line 1: x"], none, none⟩],
              false⟩) = none) := by
  refine ⟨?_, ?_, ?_⟩
  · exact diag_read_failure_rejects.1 "/cwd" ("ERROR: " ++ quoted "missing.ink" ++ " line 1: x")
      ⟨"missing.ink", "1", "x"⟩ ⟨[], "/proj"⟩ ⟨[], []⟩ rfl rfl rfl
  · exact diag_read_failure_rejects.2.1 "/cwd"
      ("WARNING: " ++ quoted "missing2.ink" ++ " line 1: w")
      ⟨"missing2.ink", "1", "w"⟩ ⟨[], "/proj"⟩ ⟨[], []⟩ rfl rfl rfl rfl
  · exact diag_read_failure_rejects.2.2 ⟨none, none, none, none⟩
      ⟨"/cwd", "/proj/main.ink", "u5",
        [⟨some false, some ["ERROR: " ++ quoted "missing.ink" ++ " line 1: x"], none, none⟩],
        false⟩ ⟨[], []⟩ (.readError "/proj/missing.ink") rfl rfl

lemma scanMatch_append_isSome (lit : List Char) :
    ∀ (s1 s2 : List Char), (matchPatternAt lit s2).isSome = true →
      (scanMatch lit (s1 ++ s2)).isSome = true := by
  intro s1
  induction s1 with
  | nil =>
    intro s2 h
    rw [List.nil_append]
    cases s2 with
    | nil => rw [scanMatch]; exact h
    | cons c cs =>
      rw [scanMatch]
      cases hm : matchPatternAt lit (c :: cs) with
      | none => rw [hm] at h; cases h
      | some m => rfl
  | cons c cs ih =>
    intro s2 h
    rw [List.cons_append, scanMatch]
    cases hm : matchPatternAt lit (c :: (cs ++ s2)) with
    | some m => rfl
    | none => exact ih s2 h

/-- C9: the error regex is consulted first, so any issue in which the
unanchored error pattern matches — anywhere as a substring, including
inside a WARNING-shaped line — is classified as an error-severity
message; and an unanchored match succeeds from any position, so a
pattern occurrence after arbitrary leading text is found. -/
theorem error_regex_precedence :
    (∀ (cwd issue : String) (ctx : CompileContext) (fs : FS)
        (tm : TaggedMessage) (ctx2 : CompileContext),
      (errorRegexMatch issue).isSome = true →
      createESBuildMessageForIssue cwd issue ctx fs = .ok (tm, ctx2) →
      ∃ pm, tm = .error pm)
    ∧ (∀ (s1 s2 : List Char), (matchPatternAt errStart s2).isSome = true →
        (scanMatch errStart (s1 ++ s2)).isSome = true) := by
  constructor
  · intro cwd issue ctx fs tm ctx2 hm hc
    cases he : errorRegexMatch issue with
    | none => rw [he] at hm; cases hm
    | some mi =>
      simp only [createESBuildMessageForIssue, he] at hc
      cases hr : readFileForMessage cwd mi.file (parseIntDigits mi.lineDigits)
          mi.message ctx fs with
      | error e => rw [hr] at hc; cases hc
      | ok p =>
        rcases p with ⟨pm, ctxb⟩
        rw [hr] at hc
        cases hc
        exact ⟨pm, rfl⟩
  · exact scanMatch_append_isSome errStart

/-- C9 witness: a WARNING-shaped issue whose message embeds an
ERROR-shaped substring matches both regexes and is classified as an
error; the embedded occurrence is found after the warning prelude. -/
theorem error_regex_precedence_witness :
    (warningRegexMatch ("WARNING: " ++ quoted "w.ink" ++ " line 2: ERROR: "
        ++ quoted "x.ink" ++ " line 5: bad")).isSome = true
    ∧ (∃ pm, TaggedMessage.error ⟨"bad", some ⟨"/d/x.ink", 5, none⟩⟩ = TaggedMessage.error pm)
    ∧ (scanMatch errStart (("WARNING: " ++ quoted "w.ink" ++ " line 2: ").data
        ++ ("ERROR: " ++ quoted "x.ink" ++ " line 5: bad").data)).isSome = true := by
  refine ⟨by decide, ?_, ?_⟩
  · exact error_regex_precedence.1 "/c"
      ("WARNING: " ++ quoted "w.ink" ++ " line 2: ERROR: " ++ quoted "x.ink" ++ " line 5: bad")
      ⟨[], "/d"⟩ ⟨[("/d/x.ink", "l1")], []⟩
      (.error ⟨"bad", some ⟨"/d/x.ink", 5, none⟩⟩) ⟨[("/d/x.ink", "l1")], "/d"⟩
      (by decide) rfl
  · exact error_regex_precedence.2
      ("WARNING: " ++ quoted "w.ink" ++ " line 2: ").data
      ("ERROR: " ++ quoted "x.ink" ++ " line 5: bad").data (by decide)

/-- C6: for an issue matching the error or warning pattern, the
referenced file is resolved against the directory of the file
submitted for compilation, and the produced message's lineText is the
element at index line minus one of the resolved file's content split
on newline; an out-of-range line number makes lineText undefined
without raising an error. -/
theorem located_message_fields :
    (∀ (cwd argsPath issue : String) (mi : IssueMatch) (cache : List (String × String))
        (fs : FS) (content : String),
      errorRegexMatch issue = some mi →
      (cacheGet cache (pathResolveTwo cwd (pathDirname argsPath) mi.file) = some content ∨
        (cacheGet cache (pathResolveTwo cwd (pathDirname argsPath) mi.file) = none ∧
          fsReadFile fs (pathResolveTwo cwd (pathDirname argsPath) mi.file) = some content)) →
      createESBuildMessageForIssue cwd issue ⟨cache, pathDirname argsPath⟩ fs =
        .ok (.error ⟨mi.message,
            some ⟨pathResolveTwo cwd (pathDirname argsPath) mi.file,
              parseIntDigits mi.lineDigits,
              jsIndex (jsSplitNewline content) ((parseIntDigits mi.lineDigits : Int) - 1)⟩⟩,
          ⟨cacheSet cache (pathResolveTwo cwd (pathDirname argsPath) mi.file) content,
            pathDirname argsPath⟩))
    ∧ (∀ (cwd argsPath issue : String) (mi : IssueMatch) (cache : List (String × String))
        (fs : FS) (content : String),
      errorRegexMatch issue = none →
      warningRegexMatch issue = some mi →
      (cacheGet cache (pathResolveTwo cwd (pathDirname argsPath) mi.file) = some content ∨
        (cacheGet cache (pathResolveTwo cwd (pathDirname argsPath) mi.file) = none ∧
          fsReadFile fs (pathResolveTwo cwd (pathDirname argsPath) mi.file) = some content)) →
      createESBuildMessageForIssue cwd issue ⟨cache, pathDirname argsPath⟩ fs =
        .ok (.warning ⟨mi.message,
            some ⟨pathResolveTwo cwd (pathDirname argsPath) mi.file,
              parseIntDigits mi.lineDigits,
              jsIndex (jsSplitNewline content) ((parseIntDigits mi.lineDigits : Int) - 1)⟩⟩,
          ⟨cacheSet cache (pathResolveTwo cwd (pathDirname argsPath) mi.file) content,
            pathDirname argsPath⟩))
    ∧ (∀ (xs : List String) (n : Nat), xs.length < n → jsIndex xs ((n : Int) - 1) = none) := by
  refine ⟨?_, ?_, ?_⟩
  · intro cwd argsPath issue mi cache fs content hm hget
    rcases hget with hcache | ⟨hcache, hread⟩
    · simp only [createESBuildMessageForIssue, hm, readFileForMessage, resolveIssuePath,
        hcache, buildMessage]
    · simp only [createESBuildMessageForIssue, hm, readFileForMessage, resolveIssuePath,
        hcache, hread, buildMessage]
  · intro cwd argsPath issue mi cache fs content hme hmw hget
    rcases hget with hcache | ⟨hcache, hread⟩
    · simp only [createESBuildMessageForIssue, hme, hmw, readFileForMessage, resolveIssuePath,
        hcache, buildMessage]
    · simp only [createESBuildMessageForIssue, hme, hmw, readFileForMessage, resolveIssuePath,
        hcache, hread, buildMessage]
  · intro xs n h
    rw [jsIndex, if_neg (by omega)]
    have ht : ((n : Int) - 1).toNat = n - 1 := by omega
    rw [ht]
    exact List.get?_eq_none.mpr (by omega)

/-- C6 witness: a located diagnostic at line 2 of a three-line sibling
file resolves against the ink file's directory and carries that line
as lineText; a line number past the end of a one-line file gives an
undefined lineText. -/
theorem located_message_fields_witness :
    createESBuildMessageForIssue "/c"
        ("ERROR: " ++ quoted "other.ink" ++ " line 2: broken") ⟨[], "/proj"⟩
        ⟨[("/proj/other.ink", "a\nb\nc")], []⟩ =
      .ok (.error ⟨"broken",
          some ⟨pathResolveTwo "/c" (pathDirname "/proj/main.ink") "other.ink", 2,
            jsIndex (jsSplitNewline "a\nb\nc") ((2 : Int) - 1)⟩⟩,
        ⟨cacheSet [] (pathResolveTwo "/c" (pathDirname "/proj/main.ink") "other.ink") "a\nb\nc",
          pathDirname "/proj/main.ink"⟩)
    ∧ jsIndex ["only line"] (((5 : Nat) : Int) - 1) = none := by
  constructor
  · exact located_message_fields.1 "/c" "/proj/main.ink"
      ("ERROR: " ++ quoted "other.ink" ++ " line 2: broken")
      ⟨"other.ink", "2", "broken"⟩ [] ⟨[("/proj/other.ink", "a\nb\nc")], []⟩ "a\nb\nc"
      (by decide) (Or.inr ⟨rfl, by decide⟩)
  · exact located_message_fields.2.2 ["only line"] 5 (by decide)

/-- A wellformed path segment: nonempty and slash-free. -/
def segWF (s : String) : Prop := s.data ≠ [] ∧ ∀ c ∈ s.data, c ≠ '/'

lemma splitSegsAux_no_slash :
    ∀ (cs acc : List Char), (∀ c ∈ cs, c ≠ '/') → (acc ≠ [] ∨ cs ≠ []) →
      splitSegsAux cs acc = [String.mk (acc.reverse ++ cs)] := by
  intro cs
  induction cs with
  | nil =>
    intro acc h hor
    have hacc : acc ≠ [] := by
      rcases hor with h1 | h2
      · exact h1
      · exact absurd rfl h2
    cases acc with
    | nil => exact absurd rfl hacc
    | cons a as => simp [splitSegsAux]
  | cons c cs2 ih =>
    intro acc h hor
    have hc : c ≠ '/' := h c (List.mem_cons_self c cs2)
    rw [splitSegsAux, if_neg hc]
    rw [ih (c :: acc) (fun x hx => h x (List.mem_cons_of_mem c hx))
      (Or.inl (List.cons_ne_nil c acc))]
    congr 1
    rw [List.reverse_cons, List.append_assoc]
    rfl

lemma splitSegsAux_append_slash :
    ∀ (cs acc tail : List Char), (∀ c ∈ cs, c ≠ '/') → (acc ≠ [] ∨ cs ≠ []) →
      splitSegsAux (cs ++ '/' :: tail) acc =
        String.mk (acc.reverse ++ cs) :: splitSegsAux tail [] := by
  intro cs
  induction cs with
  | nil =>
    intro acc tail h hor
    have hacc : acc ≠ [] := by
      rcases hor with h1 | h2
      · exact h1
      · exact absurd rfl h2
    cases acc with
    | nil => exact absurd rfl hacc
    | cons a as => simp [splitSegsAux]
  | cons c cs2 ih =>
    intro acc tail h hor
    have hc : c ≠ '/' := h c (List.mem_cons_self c cs2)
    rw [List.cons_append, splitSegsAux, if_neg hc]
    rw [ih (c :: acc) tail (fun x hx => h x (List.mem_cons_of_mem c hx))
      (Or.inl (List.cons_ne_nil c acc))]
    congr 2
    rw [List.reverse_cons, List.append_assoc]
    rfl

lemma joinSegs_split :
    ∀ segs : List String, (∀ s ∈ segs, segWF s) →
      splitSegsAux (joinSegs segs).data [] = segs := by
  intro segs
  induction segs with
  | nil => intro h; rfl
  | cons s rest ih =>
    intro h
    have hs : segWF s := h s (List.mem_cons_self s rest)
    cases rest with
    | nil =>
      rw [joinSegs]
      rw [splitSegsAux_no_slash s.data [] hs.2 (Or.inr hs.1)]
      simp only [List.reverse_nil, List.nil_append]
    | cons s2 rest2 =>
      rw [joinSegs, String.data_append, String.data_append]
      have hslash : ("/" : String).data = ['/'] := rfl
      rw [hslash, List.append_assoc, List.singleton_append]
      rw [splitSegsAux_append_slash s.data [] (joinSegs (s2 :: rest2)).data hs.2 (Or.inr hs.1)]
      simp only [List.reverse_nil, List.nil_append]
      rw [ih (fun x hx => h x (List.mem_cons_of_mem s hx))]
      exact fun hh => List.noConfusion hh

lemma pathSegments_absOfSegs (segs : List String) (h : ∀ s ∈ segs, segWF s) :
    pathSegments (absOfSegs segs) = segs := by
  rw [pathSegments, absOfSegs, String.data_append]
  have hslash : ("/" : String).data = ['/'] := rfl
  rw [hslash, List.singleton_append, splitSegsAux]
  rw [if_pos rfl]
  exact joinSegs_split segs h

lemma splitSegsAux_wf :
    ∀ (cs acc : List Char), (∀ c ∈ acc, c ≠ '/') →
      ∀ s ∈ splitSegsAux cs acc, segWF s := by
  intro cs
  induction cs with
  | nil =>
    intro acc hacc s hs
    rw [splitSegsAux] at hs
    by_cases he : acc.isEmpty
    · rw [if_pos he] at hs; cases hs
    · rw [if_neg he] at hs
      rcases List.mem_singleton.mp hs with rfl
      constructor
      · intro hd
        have : acc = [] := by
          have := congrArg List.reverse hd
          simpa using this
        rw [this] at he
        exact he rfl
      · intro c hc
        exact hacc c (List.mem_reverse.mp hc)
  | cons c cs2 ih =>
    intro acc hacc s hs
    rw [splitSegsAux] at hs
    by_cases hc : c = '/'
    · rw [if_pos hc] at hs
      by_cases he : acc.isEmpty
      · rw [if_pos he] at hs
        exact ih [] (by intro x hx; cases hx) s hs
      · rw [if_neg he] at hs
        rcases List.mem_cons.mp hs with rfl | hmem
        · constructor
          · intro hd
            have : acc = [] := by
              have := congrArg List.reverse hd
              simpa using this
            rw [this] at he
            exact he rfl
          · intro x hx
            exact hacc x (List.mem_reverse.mp hx)
        · exact ih [] (by intro x hx; cases hx) s hmem
    · rw [if_neg hc] at hs
      refine ih (c :: acc) ?_ s hs
      intro x hx
      rcases List.mem_cons.mp hx with rfl | hx2
      · exact hc
      · exact hacc x hx2

lemma pathSegments_wf (p : String) : ∀ s ∈ pathSegments p, segWF s :=
  splitSegsAux_wf p.data [] (by intro c hc; cases hc)

lemma foldl_normStep_mem :
    ∀ (segs acc : List String) (s : String),
      s ∈ segs.foldl normStep acc → s ∈ acc ∨ s ∈ segs := by
  intro segs
  induction segs with
  | nil => intro acc s h; exact Or.inl h
  | cons seg rest ih =>
    intro acc s h
    rcases ih (normStep acc seg) s h with h1 | h2
    · rw [normStep] at h1
      by_cases h3 : seg = "."
      · rw [if_pos h3] at h1; exact Or.inl h1
      · rw [if_neg h3] at h1
        by_cases h4 : seg = ".."
        · rw [if_pos h4] at h1
          exact Or.inl ((List.dropLast_sublist acc).subset h1)
        · rw [if_neg h4] at h1
          rcases List.mem_append.mp h1 with h5 | h6
          · exact Or.inl h5
          · rw [List.mem_singleton.mp h6]
            exact Or.inr (List.mem_cons_self seg rest)
    · exact Or.inr (List.mem_cons_of_mem seg h2)

lemma foldl_normStep_not_dot :
    ∀ (segs acc : List String), (∀ s ∈ acc, s ≠ "." ∧ s ≠ "..") →
      ∀ s ∈ segs.foldl normStep acc, s ≠ "." ∧ s ≠ ".." := by
  intro segs
  induction segs with
  | nil => intro acc hacc s hs; exact hacc s hs
  | cons seg rest ih =>
    intro acc hacc s hs
    refine ih (normStep acc seg) ?_ s hs
    intro x hx
    rw [normStep] at hx
    by_cases h3 : seg = "."
    · rw [if_pos h3] at hx; exact hacc x hx
    · rw [if_neg h3] at hx
      by_cases h4 : seg = ".."
      · rw [if_pos h4] at hx
        exact hacc x ((List.dropLast_sublist acc).subset hx)
      · rw [if_neg h4] at hx
        rcases List.mem_append.mp hx with h5 | h6
        · exact hacc x h5
        · rw [List.mem_singleton.mp h6]
          exact ⟨h3, h4⟩

lemma normalizeSegs_mem (segs : List String) (s : String)
    (h : s ∈ normalizeSegs segs) : s ∈ segs := by
  rcases foldl_normStep_mem segs [] s h with h1 | h2
  · cases h1
  · exact h2

lemma normalizeSegs_not_dot (segs : List String) :
    ∀ s ∈ normalizeSegs segs, s ≠ "." ∧ s ≠ ".." :=
  foldl_normStep_not_dot segs [] (by intro x hx; cases hx)

lemma foldl_normStep_clean :
    ∀ (l acc : List String), (∀ s ∈ l, s ≠ "." ∧ s ≠ "..") →
      l.foldl normStep acc = acc ++ l := by
  intro l
  induction l with
  | nil => intro acc h; simp
  | cons seg rest ih =>
    intro acc h
    have hseg := h seg (List.mem_cons_self seg rest)
    rw [List.foldl_cons]
    rw [show normStep acc seg = acc ++ [seg] by
      rw [normStep, if_neg hseg.1, if_neg hseg.2]]
    rw [ih (acc ++ [seg]) (fun x hx => h x (List.mem_cons_of_mem seg hx))]
    simp

lemma normalizeSegs_append_single (X : List String) (seg : String)
    (h1 : seg ≠ ".") (h2 : seg ≠ "..") :
    normalizeSegs (X ++ [seg]) = normalizeSegs X ++ [seg] := by
  rw [normalizeSegs, List.foldl_append, List.foldl_cons]
  rw [show normStep (X.foldl normStep []) seg = X.foldl normStep [] ++ [seg] by
    rw [normStep, if_neg h1, if_neg h2]]
  rfl

lemma normalizeSegs_idem (X : List String) :
    normalizeSegs (normalizeSegs X) = normalizeSegs X := by
  rw [normalizeSegs]
  rw [foldl_normStep_clean (normalizeSegs X) [] (normalizeSegs_not_dot X)]
  rw [List.nil_append]

lemma isAbsolutePath_absOfSegs (segs : List String) :
    isAbsolutePath (absOfSegs segs) = true := by
  rw [isAbsolutePath, absOfSegs, String.data_append]
  rfl

lemma pathResolveOne_segments (cwd p : String) :
    ∃ X : List String, pathResolveOne cwd p = absOfSegs (normalizeSegs X)
      ∧ ∀ s ∈ X, segWF s := by
  rw [pathResolveOne]
  split
  · exact ⟨pathSegments p, rfl, pathSegments_wf p⟩
  · refine ⟨pathSegments cwd ++ pathSegments p, rfl, ?_⟩
    intro s hs
    rcases List.mem_append.mp hs with h | h
    · exact pathSegments_wf cwd s h
    · exact pathSegments_wf p s h

lemma uuidJson_wf (u : String) (hu : ∀ c ∈ u.data, c ≠ '/') : segWF (u ++ ".json") := by
  constructor
  · rw [String.data_append]
    intro h
    have h2 := (List.append_eq_nil.mp h).2
    cases h2
  · rw [String.data_append]
    intro c hc
    rcases List.mem_append.mp hc with h | h
    · exact hu c h
    · have hall : ∀ x ∈ (".json" : String).data, x ≠ '/' := by decide
      exact hall c h

lemma uuidJson_ne_dot (u : String) :
    (u ++ ".json") ≠ "." ∧ (u ++ ".json") ≠ ".." := by
  constructor
  · intro h
    have h2 := congrArg String.length h
    rw [String.length_append] at h2
    have h3 : (".json" : String).length = 5 := rfl
    have h4 : ("." : String).length = 1 := rfl
    omega
  · intro h
    have h2 := congrArg String.length h
    rw [String.length_append] at h2
    have h3 : (".json" : String).length = 5 := rfl
    have h4 : (".." : String).length = 2 := rfl
    omega

lemma isAbsolutePath_uuidJson (u : String) (hu : ∀ c ∈ u.data, c ≠ '/') :
    isAbsolutePath (u ++ ".json") = false := by
  rw [isAbsolutePath, String.data_append]
  cases hd : u.data with
  | nil => rfl
  | cons c cs =>
    have hc : c ≠ '/' := hu c (by rw [hd]; exact List.mem_cons_self c cs)
    simp [hc]

lemma outputPath_under_dir (opts : InklecatePluginOptions) (inp : OnLoadInput)
    (hu : ∀ c ∈ inp.uuid.data, c ≠ '/') :
    pathSegments (onLoadOutputPath opts inp) =
      pathSegments (onLoadOutputDir opts inp) ++ [inp.uuid ++ ".json"] := by
  obtain ⟨X, hX, hXwf⟩ := pathResolveOne_segments inp.cwd (opts.tempOutputDir.getD ".")
  have hD : onLoadOutputDir opts inp = absOfSegs (normalizeSegs X) := by
    rw [onLoadOutputDir]; exact hX
  have hNwf : ∀ s ∈ normalizeSegs X, segWF s := fun s hs => hXwf s (normalizeSegs_mem X s hs)
  have hDsegs : pathSegments (onLoadOutputDir opts inp) = normalizeSegs X := by
    rw [hD]; exact pathSegments_absOfSegs _ hNwf
  have hj := uuidJson_wf inp.uuid hu
  have hjd := uuidJson_ne_dot inp.uuid
  have habs := isAbsolutePath_uuidJson inp.uuid hu
  have hsplit : pathSegments (inp.uuid ++ ".json") = [inp.uuid ++ ".json"] := by
    rw [pathSegments]
    rw [splitSegsAux_no_slash ((inp.uuid ++ ".json").data) [] hj.2 (Or.inr hj.1)]
    simp only [List.reverse_nil, List.nil_append]
  rw [onLoadOutputPath, pathResolveTwo]
  rw [if_neg (by rw [habs]; exact Bool.false_ne_true)]
  rw [if_pos (by rw [hD]; exact isAbsolutePath_absOfSegs _)]
  rw [hsplit, hDsegs]
  rw [normalizeSegs_append_single (normalizeSegs X) _ hjd.1 hjd.2]
  rw [normalizeSegs_idem]
  refine pathSegments_absOfSegs _ ?_
  intro s hs
  rcases List.mem_append.mp hs with h | h
  · exact hNwf s h
  · rw [List.mem_singleton.mp h]
    exact hj

/-- C8: the argument vector is, in order, -j; -c exactly when the count
option is truthy; -s exactly when the stats option is truthy; -x with
the plugins directory exactly when that option is a nonempty string;
-o with the generated output path, which resolves against the resolved
temp-output directory (recorded as created on the filesystem) and whose
segments place it directly under that directory; and finally the input
file path. -/
theorem inklecate_argument_vector (opts : InklecatePluginOptions) (inp : OnLoadInput) (fs : FS) :
    onLoadArgs opts inp =
        ["-j"]
        ++ (if jsTruthyOptBool opts.count then ["-c"] else [])
        ++ (if jsTruthyOptBool opts.stats then ["-s"] else [])
        ++ (match opts.inklecatePluginsDir with
            | some d => if d ≠ "" then ["-x", d] else []
            | none => [])
        ++ ["-o", onLoadOutputPath opts inp]
        ++ [inp.argsPath]
    ∧ onLoadOutputPath opts inp =
        pathResolveTwo inp.cwd (onLoadOutputDir opts inp) (inp.uuid ++ ".json")
    ∧ onLoadOutputDir opts inp ∈ (onLoad opts inp fs).fs.dirs
    ∧ ((∀ c ∈ inp.uuid.data, c ≠ '/') →
        pathSegments (onLoadOutputPath opts inp) =
          pathSegments (onLoadOutputDir opts inp) ++ [inp.uuid ++ ".json"]) := by
  refine ⟨?_, rfl, ?_, outputPath_under_dir opts inp⟩
  · by_cases hc : jsTruthyOptBool opts.count <;>
      by_cases hs : jsTruthyOptBool opts.stats <;>
        cases hd : opts.inklecatePluginsDir <;>
          simp [onLoadArgs, hc, hs, hd] <;>
            split <;> simp
  · rw [onLoad_fs_eq opts inp fs]
    exact List.mem_cons_self _ _

/-- C8 witness: with count enabled, stats off, a plugins directory and
a custom temp directory, the vector is exactly
-j -c -x plug -o /tmp/out/u-9.json /proj/main.ink, and the output path
sits directly under the resolved temp directory. -/
theorem inklecate_argument_vector_witness :
    onLoadArgs ⟨some true, none, some "plug", some "/tmp/out"⟩
        ⟨"/cwd", "/proj/main.ink", "u-9", [], false⟩ =
      ["-j", "-c", "-x", "plug", "-o", "/tmp/out/u-9.json", "/proj/main.ink"]
    ∧ pathSegments (onLoadOutputPath ⟨some true, none, some "plug", some "/tmp/out"⟩
          ⟨"/cwd", "/proj/main.ink", "u-9", [], false⟩) =
        pathSegments (onLoadOutputDir ⟨some true, none, some "plug", some "/tmp/out"⟩
          ⟨"/cwd", "/proj/main.ink", "u-9", [], false⟩) ++ ["u-9" ++ ".json"] := by
  constructor
  · exact (inklecate_argument_vector ⟨some true, none, some "plug", some "/tmp/out"⟩
      ⟨"/cwd", "/proj/main.ink", "u-9", [], false⟩ ⟨[], []⟩).1.trans (by decide)
  · exact (inklecate_argument_vector ⟨some true, none, some "plug", some "/tmp/out"⟩
      ⟨"/cwd", "/proj/main.ink", "u-9", [], false⟩ ⟨[], []⟩).2.2.2 (by decide)
